import Mathlib

/-!
Verification of the reactive state core of the polynote frontend
(`polynote-frontend/polynote/state/notebook_state.ts` and the state-update
algebra it builds on).

The TypeScript source is shallowly embedded:

* JavaScript numbers used as ids and version counters become `Int`
  (the code uses `-1` as a sentinel in several places);
* `undefined`/absent values become `Option`;
* in-place array mutation becomes functional list transformation, with the
  post-mutation array returned as part of the result;
* a thrown `Error` becomes the `Except.error` case (the sources throw before
  any mutation in all modelled paths, so the pre-call state is the state
  after an aborted call);
* the lazy `arrayFieldUpdates` proxy becomes an explicit record holding the
  data the proxy closes over (the mutated array, the affected index range,
  and the index shift), with `has`/`get` functions mirroring the proxy traps.
-/

/-- Position range of a selection or comment (stand-in for `PosRange`). -/
structure PosRange where
  start : Int
  «end» : Int
deriving DecidableEq, Repr

/-- An atomic text change (stand-in for `ContentEdit`; only carried as payload here). -/
structure ContentEdit where
  pos : Int
  length : Int
  content : String
deriving DecidableEq, Repr

/-- A single cell output (stand-in for `Output`; opaque payload). -/
structure Output where
  contentType : String
  content : String
deriving DecidableEq, Repr

/-- A result value attached to a cell (opaque payload). -/
structure ResultValue where
  name : String
deriving DecidableEq, Repr

/-- A compile error attached to a cell (opaque payload). -/
structure CompileErrors where
  message : String
deriving DecidableEq, Repr

/-- A runtime error attached to a cell (opaque payload). -/
structure RuntimeError where
  message : String
deriving DecidableEq, Repr

/-- Cell metadata; `hideSource` is the field `selectCell`'s skip-hidden logic reads. -/
structure CellMetadata where
  hideSource : Bool := false
deriving DecidableEq, Repr

/-- A comment on a cell (`CellComment` from `data.ts`). -/
structure CellComment where
  uuid : String
  range : PosRange
  content : String
deriving DecidableEq, Repr

/-- Notebook configuration (opaque payload of `UpdateConfig`). -/
structure NotebookConfig where
  raw : String := ""
deriving DecidableEq, Repr

/-- Presence of another user on a cell. -/
structure CellPresence where
  id : Int
  name : String
  color : String
  range : PosRange
deriving DecidableEq, Repr

/-- The per-cell state, mirroring the `CellState` interface field by field. -/
structure CellState where
  id : Int
  language : String
  content : String
  metadata : CellMetadata
  comments : List (String × CellComment)
  output : List Output
  results : List ResultValue
  compileErrors : List CompileErrors
  runtimeError : Option RuntimeError
  incomingEdits : List ContentEdit
  outgoingEdits : List ContentEdit
  presence : List CellPresence
  editing : Bool
  selected : Bool
  error : Bool
  running : Bool
  queued : Bool
  currentSelection : Option PosRange
  currentHighlight : Option (PosRange × String)
deriving DecidableEq, Repr

/-- The notebook cell value sent in `InsertCell` messages (`NotebookCell` from `data.ts`). -/
structure NotebookCell where
  id : Int
  language : String
  content : String
  results : List Output
  metadata : CellMetadata
deriving DecidableEq, Repr

/-- Payload of a `NotebookUpdate` message, one constructor per message kind the
update handler publishes. -/
inductive NotebookUpdatePayload where
  | insertCell (cell : NotebookCell) (prev : Int)
  | deleteCell (id : Int)
  | updateCell (id : Int) (edits : List ContentEdit) (metadata : Option CellMetadata)
  | createComment (cellId : Int) (comment : CellComment)
  | deleteComment (cellId : Int) (commentId : String)
  | updateComment (cellId : Int) (commentId : String) (range : PosRange) (content : String)
  | setCellOutput (cellId : Int) (output : Output)
  | updateConfig (config : NotebookConfig)
  | setCellLanguage (cellId : Int) (language : String)
deriving DecidableEq, Repr

/-- A version-tagged `NotebookUpdate` message. -/
structure NotebookUpdateMsg where
  globalVersion : Int
  localVersion : Int
  payload : NotebookUpdatePayload
deriving DecidableEq, Repr

/-- The state of a `NotebookUpdateHandler`: the two version counters, the
`EditBuffer` of `(localVersion, message)` entries, and the `NotebookUpdate[]`
state the handler publishes into via `this.update(s => [...s, update])`. -/
structure NotebookUpdateHandler where
  globalVersion : Int
  localVersion : Int
  edits : List (Int × NotebookUpdateMsg)
  published : List NotebookUpdateMsg
deriving DecidableEq, Repr

/-- Modelled from the spec: `EditBuffer.push` appends a `(localVersion, message)`
entry to the ordered log (`edit_buffer.ts` is not part of the sources here). -/
def EditBuffer.push (edits : List (Int × NotebookUpdateMsg)) (v : Int)
    (u : NotebookUpdateMsg) : List (Int × NotebookUpdateMsg) :=
  edits ++ [(v, u)]

/-- Modelled from the spec: `EditBuffer.range (lo, hi)` slices the entries whose
version is strictly greater than `lo` (the incoming reference) and at most `hi`;
the spec asks for "all buffered local edits with localVersion strictly greater
than the incoming reference". -/
def EditBuffer.range (edits : List (Int × NotebookUpdateMsg)) (lo hi : Int) :
    List NotebookUpdateMsg :=
  (edits.filter (fun e => lo < e.1 && e.1 ≤ hi)).map (·.2)

/-- Modelled from the spec: `EditBuffer.discard v` discards all entries at or
below the acknowledged version `v`. -/
def EditBuffer.discard (edits : List (Int × NotebookUpdateMsg)) (v : Int) :
    List (Int × NotebookUpdateMsg) :=
  edits.filter (fun e => v < e.1)

/-- Modelled from the spec: `NotebookUpdate.rebase` transforms the incoming
update against the extracted local edits in issue order (`messages.ts` is not
part of the sources here); the pairwise transform is a parameter `τ`. -/
def NotebookUpdate.rebase (τ : NotebookUpdateMsg → NotebookUpdateMsg → NotebookUpdateMsg)
    (update : NotebookUpdateMsg) (prevUpdates : List NotebookUpdateMsg) : NotebookUpdateMsg :=
  prevUpdates.foldl τ update

/-- `NotebookUpdateHandler.addUpdate`: throws on a version mismatch (before the
buffer push and the publish, so an aborted call leaves the handler unchanged),
otherwise pushes the message to the `EditBuffer` and publishes it. -/
def NotebookUpdateHandler.addUpdate (h : NotebookUpdateHandler)
    (update : NotebookUpdateMsg) : Except String NotebookUpdateHandler :=
  if update.localVersion ≠ h.localVersion then
    .error "Update Version mismatch!"
  else
    .ok { h with
          edits := EditBuffer.push h.edits update.localVersion update,
          published := h.published ++ [update] }

/-- `NotebookUpdateHandler.insertCell`: increments `localVersion`, then
publishes an `InsertCell` message tagged with the new counter. -/
def NotebookUpdateHandler.insertCell (h : NotebookUpdateHandler) (cellId : Int)
    (language content : String) (metadata : CellMetadata) (prevId : Int) :
    Except String NotebookUpdateHandler :=
  let h := { h with localVersion := h.localVersion + 1 }
  h.addUpdate { globalVersion := h.globalVersion, localVersion := h.localVersion,
                payload := .insertCell ⟨cellId, language, content, [], metadata⟩ prevId }

/-- `NotebookUpdateHandler.deleteCell`: increments `localVersion`, then
publishes a `DeleteCell` message. -/
def NotebookUpdateHandler.deleteCell (h : NotebookUpdateHandler) (id : Int) :
    Except String NotebookUpdateHandler :=
  let h := { h with localVersion := h.localVersion + 1 }
  h.addUpdate { globalVersion := h.globalVersion, localVersion := h.localVersion,
                payload := .deleteCell id }

/-- `NotebookUpdateHandler.updateCell`: increments `localVersion`, then
publishes an `UpdateCell` message (`changed.edits ?? []`). -/
def NotebookUpdateHandler.updateCell (h : NotebookUpdateHandler) (id : Int)
    (edits : Option (List ContentEdit)) (metadata : Option CellMetadata) :
    Except String NotebookUpdateHandler :=
  let h := { h with localVersion := h.localVersion + 1 }
  h.addUpdate { globalVersion := h.globalVersion, localVersion := h.localVersion,
                payload := .updateCell id (edits.getD []) metadata }

/-- `NotebookUpdateHandler.createComment`: publishes a `CreateComment` message
tagged with the current counters; note the source does not increment
`localVersion` here. -/
def NotebookUpdateHandler.createComment (h : NotebookUpdateHandler) (cellId : Int)
    (comment : CellComment) : Except String NotebookUpdateHandler :=
  h.addUpdate { globalVersion := h.globalVersion, localVersion := h.localVersion,
                payload := .createComment cellId comment }

/-- `NotebookUpdateHandler.deleteComment`: publishes a `DeleteComment` message;
no `localVersion` increment in the source. -/
def NotebookUpdateHandler.deleteComment (h : NotebookUpdateHandler) (cellId : Int)
    (commentId : String) : Except String NotebookUpdateHandler :=
  h.addUpdate { globalVersion := h.globalVersion, localVersion := h.localVersion,
                payload := .deleteComment cellId commentId }

/-- `NotebookUpdateHandler.updateComment`: publishes an `UpdateComment` message;
no `localVersion` increment in the source. -/
def NotebookUpdateHandler.updateComment (h : NotebookUpdateHandler) (cellId : Int)
    (commentId : String) (range : PosRange) (content : String) :
    Except String NotebookUpdateHandler :=
  h.addUpdate { globalVersion := h.globalVersion, localVersion := h.localVersion,
                payload := .updateComment cellId commentId range content }

/-- `NotebookUpdateHandler.setCellOutput`: publishes a `SetCellOutput` message;
no `localVersion` increment in the source. -/
def NotebookUpdateHandler.setCellOutput (h : NotebookUpdateHandler) (cellId : Int)
    (output : Output) : Except String NotebookUpdateHandler :=
  h.addUpdate { globalVersion := h.globalVersion, localVersion := h.localVersion,
                payload := .setCellOutput cellId output }

/-- `NotebookUpdateHandler.updateConfig`: increments `localVersion`, then
publishes an `UpdateConfig` message. -/
def NotebookUpdateHandler.updateConfig (h : NotebookUpdateHandler)
    (config : NotebookConfig) : Except String NotebookUpdateHandler :=
  let h := { h with localVersion := h.localVersion + 1 }
  h.addUpdate { globalVersion := h.globalVersion, localVersion := h.localVersion,
                payload := .updateConfig config }

/-- The language watcher installed by `watchCell` publishes a `SetCellLanguage`
message tagged with the current counters; no `localVersion` increment in the
source. -/
def NotebookUpdateHandler.setCellLanguage (h : NotebookUpdateHandler) (cellId : Int)
    (language : String) : Except String NotebookUpdateHandler :=
  h.addUpdate { globalVersion := h.globalVersion, localVersion := h.localVersion,
                payload := .setCellLanguage cellId language }

/-- `NotebookUpdateHandler.rebaseUpdate`: adopts the incoming `globalVersion`;
when the incoming `localVersion` reference is behind the handler's counter it
slices the newer buffered edits, discards the superseded prefix of the
`EditBuffer`, and returns the incoming update rebased over the slice. -/
def NotebookUpdateHandler.rebaseUpdate
    (τ : NotebookUpdateMsg → NotebookUpdateMsg → NotebookUpdateMsg)
    (h : NotebookUpdateHandler) (update : NotebookUpdateMsg) :
    NotebookUpdateHandler × NotebookUpdateMsg :=
  let h1 := { h with globalVersion := update.globalVersion }
  if update.localVersion < h1.localVersion then
    let prevUpdates := EditBuffer.range h1.edits update.localVersion h1.localVersion
    let h2 := { h1 with edits := EditBuffer.discard h1.edits update.localVersion }
    (h2, NotebookUpdate.rebase τ update prevUpdates)
  else
    (h1, update)

/-- One locally-originated publishing operation of the update handler. -/
inductive HandlerOp where
  | insertCell (cellId : Int) (language content : String) (metadata : CellMetadata) (prevId : Int)
  | deleteCell (id : Int)
  | updateCell (id : Int) (edits : Option (List ContentEdit)) (metadata : Option CellMetadata)
  | createComment (cellId : Int) (comment : CellComment)
  | deleteComment (cellId : Int) (commentId : String)
  | updateComment (cellId : Int) (commentId : String) (range : PosRange) (content : String)
  | setCellOutput (cellId : Int) (output : Output)
  | updateConfig (config : NotebookConfig)
  | setCellLanguage (cellId : Int) (language : String)
deriving DecidableEq, Repr

/-- Which publishing operations increment `localVersion` in the source
(`this.localVersion++` appears only in `insertCell`, `deleteCell`, `updateCell`
and `updateConfig`). -/
def HandlerOp.increments : HandlerOp → Bool
  | .insertCell .. => true
  | .deleteCell .. => true
  | .updateCell .. => true
  | .updateConfig .. => true
  | _ => false

/-- Run one publishing operation on the handler. -/
def runOp (op : HandlerOp) (h : NotebookUpdateHandler) :
    Except String NotebookUpdateHandler :=
  match op with
  | .insertCell a b c d e => h.insertCell a b c d e
  | .deleteCell a => h.deleteCell a
  | .updateCell a b c => h.updateCell a b c
  | .createComment a b => h.createComment a b
  | .deleteComment a b => h.deleteComment a b
  | .updateComment a b c d => h.updateComment a b c d
  | .setCellOutput a b => h.setCellOutput a b
  | .updateConfig a => h.updateConfig a
  | .setCellLanguage a b => h.setCellLanguage a b

/-- Run a sequence of publishing operations, stopping at the first failure. -/
def runOps (ops : List HandlerOp) (h : NotebookUpdateHandler) :
    Except String NotebookUpdateHandler :=
  match ops with
  | [] => .ok h
  | op :: rest => (runOp op h).bind (runOps rest)

/-- JavaScript array indexing `arr[i]`: `undefined` for a negative or
out-of-range index. -/
def jsGet {V : Type} (arr : List V) (i : Int) : Option V :=
  if i < 0 then none else arr[i.toNat]?

/-- JavaScript `arr.indexOf(x)`: index of the first occurrence, `-1` if absent. -/
def jsIndexOf (l : List Int) (x : Int) : Int :=
  (l.findIdx? (· = x)).elim (-1) (fun n => (n : Int))

/-- JavaScript `arr.splice(start, 0, v)`: insert `v` at `start` clamped to
`[0, length]` (a negative `start` counts from the end). -/
def jsSpliceInsert {V : Type} (arr : List V) (start : Int) (v : V) : List V :=
  let len : Int := arr.length
  let s : Int := if start < 0 then max (len + start) 0 else min start len
  arr.insertIdx s.toNat v

/-- The data the lazy `arrayFieldUpdates` proxy closes over: the mutated array,
the affected index range, and the index shift it reports. -/
structure ArrayFieldUpdates (V : Type) where
  arr : List V
  minIdx : Int
  maxIdx : Int
  indexShift : Int
deriving DecidableEq, Repr

/-- Kind tag of a reported field update. -/
inductive FieldUpdateKind where
  | destroy
  | set
  | noUpdateKind
deriving DecidableEq, Repr

/-- A reported per-field update (the `UpdateResult` entries the proxies build). -/
structure FieldUpdate (V : Type) where
  kind : FieldUpdateKind
  newValue : Option V
  oldValue : Option V
deriving DecidableEq, Repr

/-- The `destroyed(oldValue)` result: a `Destroy` update with the old value. -/
def destroyed {V : Type} (v : V) : FieldUpdate V :=
  { kind := .destroy, newValue := none, oldValue := some v }

/-- The `has` trap of the `arrayFieldUpdates` proxy: an index is reported as
affected when it lies in `[minIdx, maxIdx]`. -/
def ArrayFieldUpdates.has {V : Type} (f : ArrayFieldUpdates V) (i : Int) : Bool :=
  f.minIdx ≤ i && i ≤ f.maxIdx

/-- The `get` trap of the `arrayFieldUpdates` proxy: in range it reports a
set-value with `newValue = arr[i]` and `oldValue = arr[i - indexShift]`,
outside the range it reports no change. -/
def ArrayFieldUpdates.get {V : Type} (f : ArrayFieldUpdates V) (i : Int) : FieldUpdate V :=
  if f.minIdx ≤ i ∧ i ≤ f.maxIdx then
    { kind := .set, newValue := jsGet f.arr i, oldValue := jsGet f.arr (i - f.indexShift) }
  else
    { kind := .noUpdateKind, newValue := jsGet f.arr i, oldValue := none }

/-- Result of applying an array update (`RemoveValue`, `InsertValue`):
`selfUpdate` mirrors `update: this` (versus `NoUpdate`). -/
structure ArrayUpdateResult (V : Type) where
  selfUpdate : Bool
  newValue : List V
  removedValues : List (Int × V)
  addedValues : List (Int × V)
  fieldUpdates : ArrayFieldUpdates V
deriving DecidableEq, Repr

/-- `RemoveValue.applyMutate`: throws when `arr[idx]` is not identical to the
captured value (stale update), otherwise splices the element out, reports it in
`removedValues`, and reports indices `[idx, oldLength]` shifted by `-1`. -/
def RemoveValue.applyMutate {V : Type} [DecidableEq V] (value : V) (index : Int)
    (arr : List V) : Except String (ArrayUpdateResult V) :=
  let len : Int := arr.length
  if jsGet arr index ≠ some value then
    .error "RemoveValue is no longer valid as array has changed"
  else
    let newArr := arr.eraseIdx index.toNat
    .ok { selfUpdate := true,
          newValue := newArr,
          removedValues := [(index, value)],
          addedValues := [],
          fieldUpdates := { arr := newArr, minIdx := index, maxIdx := len, indexShift := -1 } }

/-- Run `RemoveValue.applyMutate` recording the array the caller observes
afterwards: the source throws before `splice`, so a failing call leaves the
array exactly as it was. -/
def RemoveValue.applyMutateRun {V : Type} [DecidableEq V] (value : V) (index : Int)
    (arr : List V) : Except String (ArrayUpdateResult V) × List V :=
  match RemoveValue.applyMutate value index arr with
  | .error e => (.error e, arr)
  | .ok r => (.ok r, r.newValue)

/-- `InsertValue.applyMutate`: an `undefined` receiver becomes `[]`; a truthy
`_targetIndex` (present and nonzero) splices the value in at that index; a
falsy one (absent, or `0`, since `if (this._targetIndex)` is a truthiness
test) appends and stores the old length into `_targetIndex`. The second
component of the result is the `_targetIndex` field after the call. -/
def InsertValue.applyMutate {V : Type} (value : V) (targetIndex : Option Int)
    (arrOpt : Option (List V)) : ArrayUpdateResult V × Option Int :=
  let arr := arrOpt.getD []
  let targetIdx : Int := targetIndex.getD arr.length
  let truthy : Bool := match targetIndex with
    | some i => i != 0
    | none => false
  if truthy then
    let newArr := jsSpliceInsert arr targetIdx value
    ({ selfUpdate := true,
       newValue := newArr,
       removedValues := [],
       addedValues := [(targetIdx, value)],
       fieldUpdates := { arr := newArr, minIdx := targetIdx, maxIdx := newArr.length, indexShift := 1 } },
     targetIndex)
  else
    let newArr := arr ++ [value]
    ({ selfUpdate := true,
       newValue := newArr,
       removedValues := [],
       addedValues := [(targetIdx, value)],
       fieldUpdates := { arr := newArr, minIdx := targetIdx, maxIdx := newArr.length, indexShift := 1 } },
     some (arr.length : Int))

/-- The array-structural update variants, with the constructor-time fields the
source classes capture. -/
inductive ArrayUpdate (V : Type) where
  | insertValue (value : V) (targetIndex : Option Int)
  | removeValue (value : V) (index : Int)
  | moveArrayValue (fromIndex toIndex : Int)
deriving DecidableEq, Repr

/-- The update value itself after `applyMutate` runs: only
`InsertValue.applyMutate` assigns to a field of `this` (`this._targetIndex`);
`RemoveValue` and `MoveArrayValue` never write to `this`. -/
def ArrayUpdate.applyMutateSelf {V : Type} : ArrayUpdate V → Option (List V) → ArrayUpdate V
  | .insertValue v ti, arrOpt => .insertValue v (InsertValue.applyMutate v ti arrOpt).2
  | u, _ => u

/-- Result of `RemoveKey.applyMutate`; `isNoUpdate` mirrors `update: NoUpdate`
versus `update: this`, and the receiver is `Option`-wrapped to model a
`null`/`undefined` value. -/
structure RemoveKeyResult (K V : Type) where
  isNoUpdate : Bool
  newValue : Option (K → Option V)
  removedValues : List (K × V)
  fieldUpdates : List (K × FieldUpdate V)

/-- `RemoveKey.applyMutate`: total — a `null`/`undefined` receiver or an absent
key yields the `NoUpdate` result with the value unchanged; a present key is
deleted and reported in `removedValues` with a `Destroy` field-update. -/
def RemoveKey.applyMutate {K V : Type} [DecidableEq K] (key : K)
    (value : Option (K → Option V)) : RemoveKeyResult K V :=
  match value with
  | none =>
    { isNoUpdate := true, newValue := none, removedValues := [], fieldUpdates := [] }
  | some m =>
    match m key with
    | none =>
      { isNoUpdate := true, newValue := some m, removedValues := [], fieldUpdates := [] }
    | some oldValue =>
      { isNoUpdate := false,
        newValue := some (fun k => if k = key then none else m k),
        removedValues := [(key, oldValue)],
        fieldUpdates := [(key, destroyed oldValue)] }

/-- Direction argument of `selectCell`'s `relative` option and of `insertCell`. -/
inductive RelativeDir where
  | above
  | below
deriving DecidableEq, Repr

/-- Options of `selectCell`; absent options default to `none`/`false` as the
source's `options?.x ?? false` reads do. -/
structure SelectOptions where
  relative : Option RelativeDir := none
  skipHiddenCode : Bool := false
  editing : Bool := false
deriving DecidableEq, Repr

/-- The notebook-level state relevant to the modelled domain operations:
the cells record, the canonical cell order, and the active cell id. -/
structure NotebookState where
  cells : Int → Option CellState
  cellOrder : List Int
  activeCellId : Option Int

/-- The read `this.state.cells[id]?.metadata.hideSource` (falsy when `id` is
`undefined`, when the cell is absent, or when the flag is unset). -/
def cellHiddenSource (cells : Int → Option CellState) (id : Option Int) : Bool :=
  match id with
  | some i =>
    match cells i with
    | some c => c.metadata.hideSource
    | none => false
  | none => false

/-- The `while (prevIdx > -1 && cells[id]?.metadata.hideSource)` loop of
`selectCell`'s upward skip-hidden navigation. -/
def skipHiddenAbove (cells : Int → Option CellState) (order : List Int)
    (prevIdx : Int) (id : Option Int) : Option Int :=
  if h : -1 < prevIdx ∧ cellHiddenSource cells id = true then
    skipHiddenAbove cells order (prevIdx - 1) (jsGet order (prevIdx - 1))
  else
    id
termination_by (prevIdx + 1).toNat
decreasing_by
  omega

/-- The `while (nextIdx < cellOrder.length && cells[id]?.metadata.hideSource)`
loop of `selectCell`'s downward skip-hidden navigation. -/
def skipHiddenBelow (cells : Int → Option CellState) (order : List Int)
    (nextIdx : Int) (id : Option Int) : Option Int :=
  if h : nextIdx < (order.length : Int) ∧ cellHiddenSource cells id = true then
    skipHiddenBelow cells order (nextIdx + 1) (jsGet order (nextIdx + 1))
  else
    id
termination_by ((order.length : Int) - nextIdx).toNat
decreasing_by
  omega

/-- `NotebookStateHandler.selectCell`: resolves the target id (directly, or
relative to the anchor with optional skipping of hidden-source cells), then in
one update sets `activeCellId` and recomputes `selected`/`editing` on every
cell. Returns the updated state and the resolved id. -/
def NotebookStateHandler.selectCell (s : NotebookState) (selected : Option Int)
    (options : SelectOptions) : NotebookState × Option Int :=
  let id : Option Int :=
    match selected with
    | none => none
    | some sel =>
      let anchorIdx := jsIndexOf s.cellOrder sel
      match options.relative with
      | some .above =>
        let prevIdx := anchorIdx - 1
        let id0 := jsGet s.cellOrder prevIdx
        if options.skipHiddenCode then skipHiddenAbove s.cells s.cellOrder prevIdx id0 else id0
      | some .below =>
        let nextIdx := anchorIdx + 1
        let id0 := jsGet s.cellOrder nextIdx
        if options.skipHiddenCode then skipHiddenBelow s.cells s.cellOrder nextIdx id0 else id0
      | none => some sel
  let id : Option Int :=
    match id with
    | some i => some i
    | none => if selected = some (-1) then some 0 else selected
  ({ s with
     activeCellId := id,
     cells := fun k => (s.cells k).map (fun cell =>
       { cell with
         selected := id == some cell.id,
         editing := (id == some cell.id) && options.editing }) },
   id)

/-- `NotebookStateHandler.setCellLanguage`: a single `update1` on the cell with
the given id; switching to `"text"` clears output, results, the error flag,
compile errors and the runtime error in the same update. Other keys of the
cells record are untouched. -/
def NotebookStateHandler.setCellLanguage (cells : Int → Option CellState)
    (id : Int) (language : String) : Int → Option CellState :=
  fun k =>
    if k = id then
      (cells k).map (fun cell =>
        { cell with
          language := language,
          output := if language = "text" then [] else cell.output,
          results := if language = "text" then [] else cell.results,
          error := if language = "text" then false else cell.error,
          compileErrors := if language = "text" then [] else cell.compileErrors,
          runtimeError := if language = "text" then none else cell.runtimeError })
    else
      cells k

/-- The anchor argument of `NotebookStateHandler.insertCell`. -/
structure CellAnchor where
  id : Int
  language : String
  metadata : CellMetadata
  content : Option String := none
deriving DecidableEq, Repr

/-- The argument tuple `NotebookStateHandler.insertCell` passes to
`updateHandler.insertCell`, i.e. the outgoing `InsertCell` message fields. -/
structure InsertCellCall where
  cellId : Int
  language : String
  content : String
  metadata : CellMetadata
  prev : Int
deriving DecidableEq, Repr

/-- `NotebookStateHandler.insertCell`: resolves the anchor (explicit argument,
else the active cell, else the first/last cell of `cellOrder` depending on the
direction), computes `maybePrevId` from the anchor's position, assigns the new
id as the running maximum of `cellOrder` (seeded with `-1`) plus one, and emits
the `InsertCell` message. `none` models the TypeScript crash paths (reading
`.language` of an `undefined` cell). -/
def NotebookStateHandler.insertCell (s : NotebookState) (direction : RelativeDir)
    (anchorArg : Option CellAnchor) : Option InsertCellCall := do
  let anchor ← match anchorArg with
    | some a => some a
    | none => do
      let currentCellId ← match s.activeCellId with
        | some cid => some cid
        | none =>
          match direction with
          | .above => s.cellOrder.head?
          | .below => s.cellOrder.getLast?
      let currentCell ← s.cells currentCellId
      some { id := currentCellId, language := currentCell.language,
             metadata := currentCell.metadata }
  let anchorIdx := jsIndexOf s.cellOrder anchor.id
  let prevIdx := match direction with
    | .above => anchorIdx - 1
    | .below => anchorIdx
  let maybePrevId := (jsGet s.cellOrder prevIdx).getD (-1)
  let maxId := s.cellOrder.foldl (fun acc cellId => if acc > cellId then acc else cellId) (-1)
  some { cellId := maxId + 1, language := anchor.language,
         content := anchor.content.getD "", metadata := anchor.metadata,
         prev := maybePrevId }

deriving instance DecidableEq for Except

/-- A sample comment used by concrete witnesses. -/
def sampleComment : CellComment :=
  { uuid := "c-1", range := { start := 0, «end» := 1 }, content := "hi" }

/-- A freshly attached handler after one increment round: `localVersion = 0`. -/
def handlerA : NotebookUpdateHandler :=
  { globalVersion := -1, localVersion := 0, edits := [], published := [] }

/-- The handler state `handlerA` reaches after `deleteCell 0`. -/
def handlerB : NotebookUpdateHandler :=
  { globalVersion := -1, localVersion := 1,
    edits := [(1, { globalVersion := -1, localVersion := 1, payload := .deleteCell 0 })],
    published := [{ globalVersion := -1, localVersion := 1, payload := .deleteCell 0 }] }

/-- A message carrying a stale `localVersion` of `5`. -/
def msgV5 : NotebookUpdateMsg :=
  { globalVersion := -1, localVersion := 5, payload := .deleteCell 0 }

/-- A message carrying the matching `localVersion` of `0`. -/
def msgV0 : NotebookUpdateMsg :=
  { globalVersion := -1, localVersion := 0, payload := .deleteCell 0 }

/-- Single-step effect of each publishing operation on `localVersion`. -/
theorem runOp_localVersion_eq (op : HandlerOp) (h h' : NotebookUpdateHandler)
    (hstep : runOp op h = .ok h') :
    h'.localVersion = h.localVersion + (if op.increments then 1 else 0) := by
  cases op <;>
    simp [runOp, HandlerOp.increments,
          NotebookUpdateHandler.insertCell, NotebookUpdateHandler.deleteCell,
          NotebookUpdateHandler.updateCell, NotebookUpdateHandler.createComment,
          NotebookUpdateHandler.deleteComment, NotebookUpdateHandler.updateComment,
          NotebookUpdateHandler.setCellOutput, NotebookUpdateHandler.updateConfig,
          NotebookUpdateHandler.setCellLanguage, NotebookUpdateHandler.addUpdate] at hstep ⊢ <;>
    (obtain ⟨rfl⟩ := hstep.symm) <;> rfl

/-- `localVersion` never decreases over any sequence of publishing operations. -/
theorem runOps_localVersion_le (ops : List HandlerOp) (g g' : NotebookUpdateHandler)
    (hrun : runOps ops g = .ok g') : g.localVersion ≤ g'.localVersion := by
  induction ops generalizing g with
  | nil =>
    simp [runOps] at hrun
    rw [hrun]
  | cons op rest ih =>
    simp [runOps] at hrun
    cases hmid : runOp op g with
    | error e => rw [hmid] at hrun; simp [Except.bind] at hrun
    | ok mid =>
      rw [hmid] at hrun
      simp [Except.bind] at hrun
      have h1 := runOp_localVersion_eq op g mid hmid
      have h2 := ih mid hrun
      by_cases hinc : op.increments <;> simp [hinc] at h1 <;> omega

/-- C1 (amended): among the locally-originated publishing operations of the
update handler, `insertCell`, `deleteCell`, `updateCell` and `updateConfig`
increment `localVersion` by exactly 1 per published message, while
`createComment`, `deleteComment`, `updateComment`, `setCellOutput` and the
`setCellLanguage` watcher publish with `localVersion` unchanged; `localVersion`
never decreases across any sequence of handler operations, and `rebaseUpdate`
also leaves it unchanged. -/
theorem localVersion_step_monotone (op : HandlerOp) (h h' : NotebookUpdateHandler)
    (hstep : runOp op h = .ok h') :
    h'.localVersion = h.localVersion + (if op.increments then 1 else 0) ∧
    h.localVersion ≤ h'.localVersion ∧
    (∀ ops g g', runOps ops g = .ok g' → g.localVersion ≤ g'.localVersion) ∧
    (∀ τ g u, ((NotebookUpdateHandler.rebaseUpdate τ g u).1).localVersion = g.localVersion) := by
  refine ⟨runOp_localVersion_eq op h h' hstep, ?_, runOps_localVersion_le, ?_⟩
  · have h1 := runOp_localVersion_eq op h h' hstep
    by_cases hinc : op.increments <;> simp [hinc] at h1 <;> omega
  · intro τ g u
    simp only [NotebookUpdateHandler.rebaseUpdate]
    split <;> rfl

/-- C1 witness: from `handlerA` (counter `0`), `deleteCell 0` succeeds and
raises `localVersion` by exactly the step the theorem predicts. -/
theorem localVersion_step_monotone_witness :
    runOp (.deleteCell 0) handlerA = .ok handlerB ∧
    handlerB.localVersion
      = handlerA.localVersion + (if (HandlerOp.deleteCell 0).increments then 1 else 0) :=
  ⟨by decide, (localVersion_step_monotone (.deleteCell 0) handlerA handlerB (by decide)).1⟩

/-- C1 counterexample: `createComment` publishes a message (the published log
grows from 0 to 1 entries) while `localVersion` stays at `0` instead of
incrementing to `1`, refuting the claim that every published edit message
increments the counter by exactly 1. -/
theorem createComment_publishes_without_increment :
    (handlerA.createComment 1 sampleComment).map
        (fun h => (h.localVersion, h.published.length)) = .ok (0, 1) ∧
    ¬ (handlerA.createComment 1 sampleComment).map (fun h => h.localVersion)
        = .ok (handlerA.localVersion + 1) := by
  constructor <;> decide

/-- C4: `addUpdate` fails fatally when the message's `localVersion` differs
from the handler's counter — the source throws before the `EditBuffer` push and
before publishing, so the handler keeps its pre-call `edits` and `published` —
and on a matching counter it appends the message to the `EditBuffer` and to the
published log. -/
theorem addUpdate_spec (h : NotebookUpdateHandler) (u : NotebookUpdateMsg) :
    (u.localVersion ≠ h.localVersion →
      h.addUpdate u = .error "Update Version mismatch!") ∧
    (u.localVersion = h.localVersion →
      h.addUpdate u = .ok { h with edits := h.edits ++ [(u.localVersion, u)],
                                   published := h.published ++ [u] }) := by
  constructor
  · intro hne
    simp [NotebookUpdateHandler.addUpdate, hne]
  · intro heq
    simp [NotebookUpdateHandler.addUpdate, heq, EditBuffer.push]

/-- C4 witness: a stale message (`localVersion = 5`) against `handlerA`
(counter `0`) errors out, and a matching message (`localVersion = 0`) is
appended and published. -/
theorem addUpdate_spec_witness :
    handlerA.addUpdate msgV5 = .error "Update Version mismatch!" ∧
    handlerA.addUpdate msgV0
      = .ok { handlerA with edits := [(0, msgV0)], published := [msgV0] } :=
  ⟨(addUpdate_spec handlerA msgV5).1 (by decide),
   (addUpdate_spec handlerA msgV0).2 (by decide)⟩

/-- C3: `rebaseUpdate` adopts the incoming `globalVersion` and leaves
`localVersion` untouched; when the incoming reference is strictly behind the
counter it extracts exactly the buffered edits with version strictly greater
than the reference (all buffered versions are at most the counter), drops the
entries at or below the reference from the `EditBuffer`, and returns the
incoming update folded through the transform over the extracted edits in
buffer (issue) order; otherwise both buffer and update are unchanged. -/
theorem rebaseUpdate_spec (τ : NotebookUpdateMsg → NotebookUpdateMsg → NotebookUpdateMsg)
    (h : NotebookUpdateHandler) (u : NotebookUpdateMsg)
    (hbuf : ∀ e ∈ h.edits, e.1 ≤ h.localVersion) :
    (h.rebaseUpdate τ u).1.globalVersion = u.globalVersion ∧
    (h.rebaseUpdate τ u).1.localVersion = h.localVersion ∧
    (u.localVersion < h.localVersion →
      (h.rebaseUpdate τ u).1.edits = h.edits.filter (fun e => u.localVersion < e.1) ∧
      (h.rebaseUpdate τ u).2
        = ((h.edits.filter (fun e => u.localVersion < e.1)).map (·.2)).foldl τ u) ∧
    (¬ u.localVersion < h.localVersion →
      (h.rebaseUpdate τ u).1.edits = h.edits ∧ (h.rebaseUpdate τ u).2 = u) := by
  have hrange : EditBuffer.range h.edits u.localVersion h.localVersion
      = (h.edits.filter (fun e => u.localVersion < e.1)).map (·.2) := by
    unfold EditBuffer.range
    congr 1
    apply List.filter_congr
    intro e he
    have h1 := hbuf e he
    simp [h1]
  refine ⟨?_, ?_, ?_, ?_⟩
  · simp only [NotebookUpdateHandler.rebaseUpdate]
    split <;> rfl
  · simp only [NotebookUpdateHandler.rebaseUpdate]
    split <;> rfl
  · intro hlt
    rw [NotebookUpdateHandler.rebaseUpdate, if_pos hlt]
    constructor
    · simp [EditBuffer.discard]
    · simp [NotebookUpdate.rebase, hrange]
  · intro hge
    rw [NotebookUpdateHandler.rebaseUpdate, if_neg hge]
    exact ⟨rfl, rfl⟩

/-- A buffered local edit with version 1. -/
def bufMsg1 : NotebookUpdateMsg := { globalVersion := 3, localVersion := 1, payload := .deleteCell 11 }

/-- A buffered local edit with version 2. -/
def bufMsg2 : NotebookUpdateMsg := { globalVersion := 3, localVersion := 2, payload := .deleteCell 12 }

/-- A buffered local edit with version 3. -/
def bufMsg3 : NotebookUpdateMsg := { globalVersion := 3, localVersion := 3, payload := .deleteCell 13 }

/-- A handler with three pending buffered edits and counter 3. -/
def handlerC : NotebookUpdateHandler :=
  { globalVersion := 5, localVersion := 3,
    edits := [(1, bufMsg1), (2, bufMsg2), (3, bufMsg3)], published := [] }

/-- An incoming authoritative update referencing local version 1. -/
def incomingU : NotebookUpdateMsg := { globalVersion := 7, localVersion := 1, payload := .deleteCell 99 }

/-- A trivial pairwise transform used by concrete witnesses. -/
def tau0 : NotebookUpdateMsg → NotebookUpdateMsg → NotebookUpdateMsg := fun u _ => u

/-- C3 witness: rebasing `incomingU` (reference 1) against `handlerC`
(counter 3) adopts `globalVersion` 7, keeps `localVersion` 3, keeps exactly the
buffered entries with version greater than 1, and folds the transform over
them. -/
theorem rebaseUpdate_spec_witness :
    (handlerC.rebaseUpdate tau0 incomingU).1.globalVersion = 7 ∧
    (handlerC.rebaseUpdate tau0 incomingU).1.localVersion = 3 ∧
    (handlerC.rebaseUpdate tau0 incomingU).1.edits = [(2, bufMsg2), (3, bufMsg3)] ∧
    (handlerC.rebaseUpdate tau0 incomingU).2 = incomingU := by
  have H := rebaseUpdate_spec tau0 handlerC incomingU (by decide)
  exact ⟨H.1, H.2.1, ((H.2.2.1 (by decide)).1).trans (by decide),
         ((H.2.2.1 (by decide)).2).trans (by decide)⟩

/-- Whether an `Except` value is a success. -/
def exceptOk {ε α : Type} : Except ε α → Bool
  | .ok _ => true
  | .error _ => false

/-- C2: `RemoveValue(v, idx).applyMutate(arr)` fails exactly when `arr[idx]` is
not identical to `v`, and a failing call leaves the array untouched; on success
the element is spliced out, `removedValues` reports `{idx: v}`, and the
reported field updates cover every old index from `idx` through the old length
with an index shift of `-1`. -/
theorem RemoveValue_applyMutate_spec {V : Type} [DecidableEq V] (v : V) (idx : Int)
    (arr : List V) :
    (exceptOk (RemoveValue.applyMutateRun v idx arr).1 = false ↔ jsGet arr idx ≠ some v) ∧
    (jsGet arr idx ≠ some v → (RemoveValue.applyMutateRun v idx arr).2 = arr) ∧
    (∀ r, RemoveValue.applyMutate v idx arr = .ok r →
      r.newValue = arr.eraseIdx idx.toNat ∧
      r.removedValues = [(idx, v)] ∧
      r.fieldUpdates.indexShift = -1 ∧
      r.fieldUpdates.minIdx = idx ∧
      r.fieldUpdates.maxIdx = (arr.length : Int) ∧
      (∀ i : Int, idx ≤ i → i ≤ (arr.length : Int) → r.fieldUpdates.has i = true)) := by
  by_cases hc : jsGet arr idx = some v
  · refine ⟨?_, ?_, ?_⟩
    · simp [RemoveValue.applyMutateRun, RemoveValue.applyMutate, hc, exceptOk]
    · intro hne
      exact absurd hc hne
    · intro r hr
      have hr2 : RemoveValue.applyMutate v idx arr
          = .ok { selfUpdate := true, newValue := arr.eraseIdx idx.toNat,
                  removedValues := [(idx, v)], addedValues := [],
                  fieldUpdates := { arr := arr.eraseIdx idx.toNat, minIdx := idx,
                                    maxIdx := (arr.length : Int), indexShift := -1 } } := by
        simp [RemoveValue.applyMutate, hc]
      rw [hr2] at hr
      obtain rfl := Except.ok.inj hr
      refine ⟨rfl, rfl, rfl, rfl, rfl, ?_⟩
      intro i h1 h2
      simp [ArrayFieldUpdates.has, h1, h2]
  · refine ⟨?_, ?_, ?_⟩
    · simp [RemoveValue.applyMutateRun, RemoveValue.applyMutate, hc, exceptOk]
    · intro _
      simp [RemoveValue.applyMutateRun, RemoveValue.applyMutate, hc]
    · intro r hr
      rw [RemoveValue.applyMutate, if_pos (by simp [hc])] at hr
      exact absurd hr (by simp)

/-- The result of removing `20` at index `1` from `[10, 20, 30]`. -/
def removeSampleResult : ArrayUpdateResult Int :=
  { selfUpdate := true, newValue := [10, 30], removedValues := [(1, 20)], addedValues := [],
    fieldUpdates := { arr := [10, 30], minIdx := 1, maxIdx := 3, indexShift := -1 } }

/-- C2 witness: at index 5 of `[10, 20, 30]` the value check fails and the
array is untouched; at index 1 the removal succeeds, reports `{1: 20}`, and
reports index 2 as affected. -/
theorem RemoveValue_applyMutate_spec_witness :
    jsGet ([10, 20, 30] : List Int) 5 ≠ some 20 ∧
    (RemoveValue.applyMutateRun (20 : Int) 5 [10, 20, 30]).2 = [10, 20, 30] ∧
    RemoveValue.applyMutate (20 : Int) 1 [10, 20, 30] = .ok removeSampleResult ∧
    removeSampleResult.removedValues = [(1, 20)] ∧
    removeSampleResult.fieldUpdates.has 2 = true := by
  refine ⟨by decide, (RemoveValue_applyMutate_spec 20 5 [10, 20, 30]).2.1 (by decide), by decide,
    ((RemoveValue_applyMutate_spec 20 1 [10, 20, 30]).2.2 removeSampleResult (by decide)).2.1,
    ((RemoveValue_applyMutate_spec 20 1 [10, 20, 30]).2.2 removeSampleResult (by decide)).2.2.2.2.2
      2 (by decide) (by decide)⟩

/-- C5: divergence witness for `InsertValue` at index 0. Because the source
guards the splice with the truthiness test `if (this._targetIndex)`, index `0`
is treated like an omitted index: `InsertValue(20, 0).applyMutate([10])`
appends `20` at the end, producing `[10, 20]` instead of the specified
`[20, 10]`, while still reporting `addedValues = {0: 20}` — an index at which
the produced array does not hold the inserted value. For any nonzero in-range
index the splice behaves as specified. -/
theorem InsertValue_zero_index_divergence :
    (InsertValue.applyMutate (20 : Int) (some 0) (some [10])).1.newValue = [10, 20] ∧
    (InsertValue.applyMutate (20 : Int) (some 0) (some [10])).1.newValue ≠ [20, 10] ∧
    (InsertValue.applyMutate (20 : Int) (some 0) (some [10])).1.addedValues = [(0, 20)] ∧
    (InsertValue.applyMutate (20 : Int) (some 1) (some [10, 30])).1.newValue = [10, 20, 30] ∧
    (InsertValue.applyMutate (20 : Int) none (some [10])).1.newValue = [10, 20] := by
  refine ⟨?_, ?_, ?_, ?_, ?_⟩ <;> decide

/-- C6 counterexample: applying `InsertValue(5)` (no target index) to `[10]`
writes the append position into the update's `_targetIndex` field, so the
update value after `applyMutate` differs from the constructed one. -/
theorem insertValue_applyMutate_mutates_self :
    ArrayUpdate.applyMutateSelf (ArrayUpdate.insertValue (5 : Int) none) (some [10])
      = ArrayUpdate.insertValue 5 (some 1) ∧
    ArrayUpdate.insertValue (5 : Int) (some 1) ≠ ArrayUpdate.insertValue 5 none := by
  constructor <;> decide

/-- C6 (amended): an array update is unchanged by its own `applyMutate`, except
`InsertValue` with an absent or zero `_targetIndex` (falsy under the source's
truthiness test), which records the append position — the old array length —
into that field. -/
theorem applyMutateSelf_characterization {V : Type} (u : ArrayUpdate V)
    (arrOpt : Option (List V)) :
    u.applyMutateSelf arrOpt = u ∨
    (∃ v, (u = .insertValue v none ∨ u = .insertValue v (some 0)) ∧
       u.applyMutateSelf arrOpt = .insertValue v (some ((arrOpt.getD []).length : Int))) := by
  cases u with
  | insertValue v ti =>
    cases ti with
    | none =>
      right
      exact ⟨v, Or.inl rfl, by simp [ArrayUpdate.applyMutateSelf, InsertValue.applyMutate]⟩
    | some i =>
      by_cases hi : i = 0
      · right
        subst hi
        exact ⟨v, Or.inr rfl, by simp [ArrayUpdate.applyMutateSelf, InsertValue.applyMutate]⟩
      · left
        simp [ArrayUpdate.applyMutateSelf, InsertValue.applyMutate, hi]
  | removeValue v i =>
    left
    rfl
  | moveArrayValue a b =>
    left
    rfl

/-- C7: `setCellLanguage cells id "text"` produces, in one update of the cells
record, the cell at `id` with `language = "text"`, cleared `output`, `results`,
`compileErrors`, cleared `error` flag and no `runtimeError`, leaving every
other field of the cell and every other key of the record as they were; a
non-`"text"` language changes only the `language` field. -/
theorem setCellLanguage_spec (cells : Int → Option CellState) (id : Int)
    (cell : CellState) (h : cells id = some cell) :
    NotebookStateHandler.setCellLanguage cells id "text" id
      = some { cell with
               language := "text", output := [], results := [],
               error := false, compileErrors := [], runtimeError := none } ∧
    (∀ lang, lang ≠ "text" →
      NotebookStateHandler.setCellLanguage cells id lang id = some { cell with language := lang }) ∧
    (∀ lang j, j ≠ id → NotebookStateHandler.setCellLanguage cells id lang j = cells j) := by
  refine ⟨?_, ?_, ?_⟩
  · simp [NotebookStateHandler.setCellLanguage, h]
  · intro lang hlang
    simp [NotebookStateHandler.setCellLanguage, h, hlang]
  · intro lang j hj
    simp [NotebookStateHandler.setCellLanguage, hj]

/-- A cell carrying outputs, results and errors, used to exercise the clearing
behaviour of `setCellLanguage`. -/
def sampleCellDirty : CellState :=
  { id := 1, language := "scala", content := "1 + 1", metadata := {},
    comments := [], output := [{ contentType := "text/plain", content := "2" }],
    results := [{ name := "res0" }],
    compileErrors := [{ message := "boom" }],
    runtimeError := some { message := "crash" },
    incomingEdits := [], outgoingEdits := [], presence := [],
    editing := false, selected := false, error := true, running := false,
    queued := false, currentSelection := none, currentHighlight := none }

/-- A one-cell record holding `sampleCellDirty` at key 1. -/
def cellsDirty : Int → Option CellState :=
  fun k => if k = 1 then some sampleCellDirty else none

/-- C7 witness: on the concrete dirty cell, switching to `"text"` clears the
five fields at once, switching to `"python"` changes only the language, and
key 2 of the record is untouched. -/
theorem setCellLanguage_spec_witness :
    cellsDirty 1 = some sampleCellDirty ∧
    NotebookStateHandler.setCellLanguage cellsDirty 1 "text" 1
      = some { sampleCellDirty with
               language := "text", output := [], results := [],
               error := false, compileErrors := [], runtimeError := none } ∧
    NotebookStateHandler.setCellLanguage cellsDirty 1 "python" 1
      = some { sampleCellDirty with language := "python" } ∧
    NotebookStateHandler.setCellLanguage cellsDirty 1 "text" 2 = cellsDirty 2 :=
  ⟨rfl, (setCellLanguage_spec cellsDirty 1 sampleCellDirty rfl).1,
   (setCellLanguage_spec cellsDirty 1 sampleCellDirty rfl).2.1 "python" (by decide),
   (setCellLanguage_spec cellsDirty 1 sampleCellDirty rfl).2.2 "text" 2 (by decide)⟩

/-- C10: `RemoveKey(k).applyMutate(v)` is total and never throws: a
`null`/`undefined` receiver or an absent key yields the `NoUpdate` result with
the receiver unchanged; a present key is deleted, reported in `removedValues`,
and reported in `fieldUpdates` as a `Destroy` of the old value. -/
theorem RemoveKey_applyMutate_spec {K V : Type} [DecidableEq K] (key : K)
    (value : Option (K → Option V)) :
    ((RemoveKey.applyMutate key value).isNoUpdate = true
        ↔ value.bind (fun m => m key) = none) ∧
    (value.bind (fun m => m key) = none →
      RemoveKey.applyMutate key value
        = { isNoUpdate := true, newValue := value, removedValues := [], fieldUpdates := [] }) ∧
    (∀ m v, value = some m → m key = some v →
      (RemoveKey.applyMutate key value).isNoUpdate = false ∧
      (RemoveKey.applyMutate key value).removedValues = [(key, v)] ∧
      (RemoveKey.applyMutate key value).fieldUpdates = [(key, destroyed v)] ∧
      (RemoveKey.applyMutate key value).newValue
        = some (fun k => if k = key then none else m k)) := by
  refine ⟨?_, ?_, ?_⟩
  · cases value with
    | none => simp [RemoveKey.applyMutate]
    | some m =>
      cases hk : m key with
      | none => simp [RemoveKey.applyMutate, hk]
      | some v => simp [RemoveKey.applyMutate, hk]
  · intro habs
    cases value with
    | none => rfl
    | some m =>
      have hk : m key = none := habs
      simp [RemoveKey.applyMutate, hk]
  · intro m v hm hk
    cases hm
    simp [RemoveKey.applyMutate, hk]

/-- A one-key map holding `5` at `"a"`. -/
def mapA : String → Option Int := fun k => if k = "a" then some 5 else none

/-- C10 witness: removing the absent key `"b"` is a no-op, removing from a
`null` receiver is a no-op, and removing the present key `"a"` reports the
removed value with a `Destroy` field-update. -/
theorem RemoveKey_applyMutate_spec_witness :
    (RemoveKey.applyMutate "b" (some mapA)).isNoUpdate = true ∧
    (RemoveKey.applyMutate "x" (none : Option (String → Option Int))).newValue = none ∧
    (RemoveKey.applyMutate "a" (some mapA)).removedValues = [("a", 5)] ∧
    (RemoveKey.applyMutate "a" (some mapA)).fieldUpdates = [("a", destroyed 5)] :=
  ⟨(RemoveKey_applyMutate_spec "b" (some mapA)).1.mpr rfl,
   congrArg RemoveKeyResult.newValue
     ((RemoveKey_applyMutate_spec "x" (none : Option (String → Option Int))).2.1 rfl),
   ((RemoveKey_applyMutate_spec "a" (some mapA)).2.2 mapA 5 rfl rfl).2.1,
   ((RemoveKey_applyMutate_spec "a" (some mapA)).2.2 mapA 5 rfl rfl).2.2.1⟩

/-- C8: with no `relative` option and a present target cell, `selectCell`
returns the id, stores it in `activeCellId`, marks exactly the matching cell
selected (with `editing` as requested), unmarks every other cell, and at most
one cell is selected afterwards. The hypothesis `hinv` is the keying invariant
of the cells record (`cells[k].id = k`). -/
theorem selectCell_spec (s : NotebookState) (i : Int) (e : Bool) (c : CellState)
    (hinv : ∀ k c0, s.cells k = some c0 → c0.id = k)
    (hc : s.cells i = some c) :
    (NotebookStateHandler.selectCell s (some i)
        { relative := none, skipHiddenCode := false, editing := e }).2 = some i ∧
    (NotebookStateHandler.selectCell s (some i)
        { relative := none, skipHiddenCode := false, editing := e }).1.activeCellId = some i ∧
    (NotebookStateHandler.selectCell s (some i)
        { relative := none, skipHiddenCode := false, editing := e }).1.cells i
      = some { c with selected := true, editing := e } ∧
    (∀ k c0, k ≠ i → s.cells k = some c0 →
      (NotebookStateHandler.selectCell s (some i)
          { relative := none, skipHiddenCode := false, editing := e }).1.cells k
        = some { c0 with selected := false, editing := false }) ∧
    (∀ k1 k2 c1 c2,
      (NotebookStateHandler.selectCell s (some i)
          { relative := none, skipHiddenCode := false, editing := e }).1.cells k1 = some c1 →
      (NotebookStateHandler.selectCell s (some i)
          { relative := none, skipHiddenCode := false, editing := e }).1.cells k2 = some c2 →
      c1.selected = true → c2.selected = true → k1 = k2) := by
  have hcells : (NotebookStateHandler.selectCell s (some i)
      { relative := none, skipHiddenCode := false, editing := e }).1.cells
      = fun k => (s.cells k).map (fun cell =>
          { cell with selected := (some i == some cell.id),
                      editing := (some i == some cell.id) && e }) := rfl
  have hcid : c.id = i := hinv i c hc
  refine ⟨rfl, rfl, ?_, ?_, ?_⟩
  · rw [hcells]
    simp [hc, hcid]
  · intro k c0 hk hsk
    have h0 : c0.id = k := hinv k c0 hsk
    have hbeq : ((some i : Option Int) == some k) = false := by
      simp only [beq_eq_false_iff_ne, ne_eq, Option.some.injEq]
      exact fun hik => hk hik.symm
    rw [hcells]
    simp [hsk, h0, hbeq]
    exact ⟨fun hik => absurd hik.symm hk, fun hik => hk hik.symm⟩
  · intro k1 k2 c1 c2 h1 h2 hs1 hs2
    rw [hcells] at h1 h2
    obtain ⟨d1, hd1, he1⟩ := Option.map_eq_some'.mp h1
    obtain ⟨d2, hd2, he2⟩ := Option.map_eq_some'.mp h2
    have hk1 : k1 = i := by
      have : ((some i : Option Int) == some d1.id) = true := by
        rw [← he1] at hs1
        exact hs1
      have hid : i = d1.id := by
        have := beq_iff_eq.mp this
        exact Option.some.inj this
      rw [← hinv k1 d1 hd1, ← hid]
    have hk2 : k2 = i := by
      have : ((some i : Option Int) == some d2.id) = true := by
        rw [← he2] at hs2
        exact hs2
      have hid : i = d2.id := by
        have := beq_iff_eq.mp this
        exact Option.some.inj this
      rw [← hinv k2 d2 hd2, ← hid]
    rw [hk1, hk2]

/-- A plain unselected cell with the given id. -/
def mkPlainCell (id : Int) : CellState :=
  { id := id, language := "scala", content := "", metadata := {}, comments := [],
    output := [], results := [], compileErrors := [], runtimeError := none,
    incomingEdits := [], outgoingEdits := [], presence := [], editing := false,
    selected := false, error := false, running := false, queued := false,
    currentSelection := none, currentHighlight := none }

/-- A cells record holding plain cells at keys 1, 2 and 3. -/
def cells123 : Int → Option CellState :=
  fun k => if k = 1 ∨ k = 2 ∨ k = 3 then some (mkPlainCell k) else none

/-- The notebook state with cells `[1, 2, 3]` in order and nothing selected. -/
def nbState123 : NotebookState :=
  { cells := cells123, cellOrder := [1, 2, 3], activeCellId := none }

/-- C8 witness: on cells `[1, 2, 3]` with none selected, `selectCell 2` sets
`activeCellId` to 2, selects exactly cell 2 and leaves cells 1 and 3
unselected. -/
theorem selectCell_spec_witness :
    nbState123.cells 2 = some (mkPlainCell 2) ∧
    (NotebookStateHandler.selectCell nbState123 (some 2)
        { relative := none, skipHiddenCode := false, editing := false }).1.activeCellId = some 2 ∧
    (NotebookStateHandler.selectCell nbState123 (some 2)
        { relative := none, skipHiddenCode := false, editing := false }).1.cells 2
      = some { mkPlainCell 2 with selected := true, editing := false } ∧
    (NotebookStateHandler.selectCell nbState123 (some 2)
        { relative := none, skipHiddenCode := false, editing := false }).1.cells 1
      = some { mkPlainCell 1 with selected := false, editing := false } ∧
    (NotebookStateHandler.selectCell nbState123 (some 2)
        { relative := none, skipHiddenCode := false, editing := false }).1.cells 3
      = some { mkPlainCell 3 with selected := false, editing := false } := by
  have hinv : ∀ k c0, nbState123.cells k = some c0 → c0.id = k := by
    intro k c0 h
    simp only [nbState123, cells123] at h
    split at h
    · injection h with h2
      rw [← h2]
      rfl
    · exact Option.noConfusion h
  have H := selectCell_spec nbState123 2 false (mkPlainCell 2) hinv (by decide)
  exact ⟨by decide, H.2.1, H.2.2.1,
    H.2.2.2.1 1 (mkPlainCell 1) (by decide) (by decide),
    H.2.2.2.1 3 (mkPlainCell 3) (by decide) (by decide)⟩

/-- The seed of the running-maximum fold is a lower bound of its result. -/
theorem foldlMax_init_le (l : List Int) (a : Int) :
    a ≤ l.foldl (fun acc c => if acc > c then acc else c) a := by
  induction l generalizing a with
  | nil => exact le_refl a
  | cons c t ih =>
    refine le_trans ?_ (ih (if a > c then a else c))
    split <;> omega

/-- Every element of the list is bounded by the running-maximum fold. -/
theorem foldlMax_le (l : List Int) (a : Int) :
    ∀ x ∈ l, x ≤ l.foldl (fun acc c => if acc > c then acc else c) a := by
  induction l generalizing a with
  | nil =>
    intro x hx
    exact absurd hx (List.not_mem_nil x)
  | cons c t ih =>
    intro x hx
    rcases List.mem_cons.mp hx with hx | hx
    · subst hx
      refine le_trans ?_ (foldlMax_init_le t (if a > x then a else x))
      split <;> omega
    · exact ih (if a > c then a else c) x hx

/-- The running-maximum fold yields the seed or a member of the list. -/
theorem foldlMax_mem (l : List Int) (a : Int) :
    l.foldl (fun acc c => if acc > c then acc else c) a = a ∨
    l.foldl (fun acc c => if acc > c then acc else c) a ∈ l := by
  induction l generalizing a with
  | nil => exact Or.inl rfl
  | cons c t ih =>
    rcases ih (if a > c then a else c) with h | h
    · rw [List.foldl_cons, h]
      split
      · exact Or.inl rfl
      · exact Or.inr (List.mem_cons_self c t)
    · exact Or.inr (List.mem_cons_of_mem c h)

/-- `arr[arr.indexOf(x)]` recovers `x` whenever `x` occurs in `arr`. -/
theorem jsGet_jsIndexOf (l : List Int) (x : Int) (hx : x ∈ l) :
    jsGet l (jsIndexOf l x) = some x := by
  induction l with
  | nil => exact absurd hx (List.not_mem_nil x)
  | cons c t ih =>
    by_cases hcx : c = x
    · subst hcx
      simp [jsIndexOf, jsGet]
    · have hxt : x ∈ t := by
        rcases List.mem_cons.mp hx with h | h
        · exact absurd h.symm hcx
        · exact h
      have ih2 := ih hxt
      have hstep : (c :: t).findIdx? (fun y => decide (y = x))
          = (t.findIdx? (fun y => decide (y = x))).map (· + 1) := by
        rw [List.findIdx?_cons, if_neg (by simp [hcx]), List.findIdx?_succ]
      cases hfi : t.findIdx? (fun y => decide (y = x)) with
      | none =>
        exfalso
        rw [jsIndexOf, hfi] at ih2
        simp [jsGet] at ih2
      | some n =>
        rw [jsIndexOf, hfi] at ih2
        rw [jsIndexOf, hstep, hfi]
        simp only [Option.map_some', Option.elim_some] at ih2 ⊢
        have h1 : (((n + 1 : Nat) : Int)).toNat = n + 1 := by omega
        rw [jsGet, if_neg (by omega), h1, List.getElem?_cons_succ]
        have h2 : (((n : Nat) : Int)).toNat = n := by omega
        rw [jsGet, if_neg (by omega), h2] at ih2
        exact ih2

/-- C9: with no explicit anchor and no active cell, `insertCell` anchors on the
last cell for direction `below` (copying its language and metadata, with
`prev` the anchor itself) and on the first cell for `above` (with `prev = -1`),
and assigns the new id as one more than the running maximum of `cellOrder`:
strictly above every existing id, and — when ids are nonnegative, as the id
assignment scheme guarantees — exactly `max(existing ids) + 1`. -/
theorem insertCell_spec (s : NotebookState) (firstId lastId : Int)
    (firstCell lastCell : CellState)
    (hactive : s.activeCellId = none)
    (h1 : s.cellOrder.head? = some firstId) (h1c : s.cells firstId = some firstCell)
    (h2 : s.cellOrder.getLast? = some lastId) (h2c : s.cells lastId = some lastCell) :
    NotebookStateHandler.insertCell s .below none = some
      { cellId := s.cellOrder.foldl (fun acc c => if acc > c then acc else c) (-1) + 1,
        language := lastCell.language, content := "", metadata := lastCell.metadata,
        prev := lastId } ∧
    NotebookStateHandler.insertCell s .above none = some
      { cellId := s.cellOrder.foldl (fun acc c => if acc > c then acc else c) (-1) + 1,
        language := firstCell.language, content := "", metadata := firstCell.metadata,
        prev := -1 } ∧
    (∀ x ∈ s.cellOrder,
      x < s.cellOrder.foldl (fun acc c => if acc > c then acc else c) (-1) + 1) ∧
    ((∀ x ∈ s.cellOrder, 0 ≤ x) →
      s.cellOrder.foldl (fun acc c => if acc > c then acc else c) (-1) ∈ s.cellOrder) := by
  have hmemLast : lastId ∈ s.cellOrder := List.mem_of_getLast?_eq_some h2
  have hjs := jsGet_jsIndexOf s.cellOrder lastId hmemLast
  obtain ⟨tl, horder⟩ := List.head?_eq_some_iff.mp h1
  refine ⟨?_, ?_, ?_, ?_⟩
  · simp [NotebookStateHandler.insertCell, hactive, h2, h2c, hjs]
  · simp [NotebookStateHandler.insertCell, hactive, horder, h1c, jsIndexOf,
          List.findIdx?_cons, jsGet]
  · intro x hx
    have := foldlMax_le s.cellOrder (-1) x hx
    omega
  · intro hpos
    rcases foldlMax_mem s.cellOrder (-1) with h | h
    · exfalso
      have hmemFirst : firstId ∈ s.cellOrder := by
        rw [horder]
        exact List.mem_cons_self firstId tl
      have hle := foldlMax_le s.cellOrder (-1) firstId hmemFirst
      have h0 := hpos firstId hmemFirst
      omega
    · exact h

/-- A cells record holding plain cells at keys 0 and 1. -/
def cells01 : Int → Option CellState :=
  fun k => if k = 0 ∨ k = 1 then some (mkPlainCell k) else none

/-- The notebook state with cells `[0, 1]` in order and no active cell. -/
def nbState01 : NotebookState :=
  { cells := cells01, cellOrder := [0, 1], activeCellId := none }

/-- C9 witness: on cells `{0, 1}` with no active cell, `insertCell below`
anchors on cell 1 and emits an `InsertCell` message with new id 2 and
`prev = 1`; `insertCell above` anchors on cell 0 with `prev = -1`. -/
theorem insertCell_spec_witness :
    NotebookStateHandler.insertCell nbState01 .below none = some
      { cellId := 2, language := "scala", content := "", metadata := {}, prev := 1 } ∧
    NotebookStateHandler.insertCell nbState01 .above none = some
      { cellId := 2, language := "scala", content := "", metadata := {}, prev := -1 } := by
  have H := insertCell_spec nbState01 0 1 (mkPlainCell 0) (mkPlainCell 1)
    rfl (by decide) (by decide) (by decide) (by decide)
  exact ⟨H.1, H.2.1⟩
